import Mathlib

/-!
Shallow embedding of the TuneWeaver discovery pipeline (src/app.py).
Remote Spotify calls are modelled by oracle functions giving the wrapped
call results; the rate-limited wrapper is modelled as a function on the
list of successive outcomes of invoking the wrapped operation, together
with the events (error, warning, sleep, stop) it emits.
-/

/-- Model of an artist record as returned by the API; `popularity` is `none`
when the field is missing from the response. -/
structure Artist where
  id : String
  name : String
  popularity : Option Nat
  deriving DecidableEq, Repr

/-- Model of a track record from an artist-top-tracks response. -/
structure ApiTrack where
  name : String
  duration_ms : Nat
  deriving DecidableEq, Repr

/-- Model of a playlist entry as built by the playlist loop:
the dict with keys name, artist, duration_ms. -/
structure PEntry where
  name : String
  artist : String
  duration_ms : Nat
  deriving DecidableEq, Repr

/-- Model of one outcome of invoking the wrapped remote operation: success,
a SpotifyException carrying an HTTP status and the optional Retry-After
header value, or any other exception. -/
inductive Outcome (α : Type) where
  | success (v : α)
  | spotifyExc (status : Nat) (retryAfter : Option Nat)
  | otherExc
  deriving DecidableEq, Repr

/-- Observable side effects of `safe_sp_call`: `st.error`, `st.warning`,
`time.sleep`, and `st.stop`. The last is what halts a Streamlit request
(used at module top level of src/app.py); it is listed so that not
halting is expressible. -/
inductive Event where
  | errorMsg (status : Nat)
  | warning
  | sleep (secs : Nat)
  | stop
  deriving DecidableEq, Repr

/-- Embedding of `safe_sp_call` (src/app.py lines 47-67) over the list of
successive outcomes of invoking `fn`; each retry consumes the next
outcome. Returns the call result (or `none`) and the emitted events. -/
def safe_sp_call {α : Type} : List (Outcome α) → Option α × List Event
  | [] => (none, [])
  | .success v :: _ => (some v, [])
  | .spotifyExc status retryAfter :: rest =>
    if status = 429 then
      ((safe_sp_call rest).1, .sleep (retryAfter.getD 1) :: (safe_sp_call rest).2)
    else if status = 401 ∨ status = 403 then
      (none, [.errorMsg status])
    else if status = 404 then
      (none, [])
    else
      (none, [.warning])
  | .otherExc :: _ => (none, [.warning])

/-- Embedding of the inner generator `chunked(lst, 50)` of
`fetch_artist_details` (src/app.py lines 103-105): successive slices of at
most 50 elements. -/
def chunked50 {α : Type} (l : List α) : List (List α) :=
  match l with
  | [] => []
  | x :: xs => (x :: xs.take 49) :: chunked50 (xs.drop 49)
termination_by l.length
decreasing_by simp [List.length_drop]; omega

/-- Embedding of `fetch_artist_details` (src/app.py lines 98-112) over an
oracle `api` giving, for each chunk, the `artists` field of the wrapped
`sp.artists` call (`none` when the call failed or the key is missing). -/
def fetch_artist_details (api : List String → Option (List Artist))
    (ids : List String) : List Artist :=
  (chunked50 ids).foldl (fun details chunk =>
    match api chunk with
    | some arts => if arts.isEmpty then details else details ++ arts
    | none => details) []

/-- Identifier chunks that `fetch_artist_details` passes to `sp.artists`:
one wrapped remote call is issued per chunk. -/
def fetch_calls (ids : List String) : List (List String) := chunked50 ids

/-- Literal first alternative of the regex in `extract_artist_id`. -/
def uriPat : List Char := "spotify:artist:".toList

/-- Literal second alternative of the regex in `extract_artist_id`. -/
def urlPat : List Char := "open.spotify.com/artist/".toList

/-- Model of one attempt of the regex of `extract_artist_id` at a fixed
position: try each literal alternative, then capture a maximal nonempty
alphanumeric run. -/
def tryMatchAt (cs : List Char) : Option (List Char) :=
  if uriPat.isPrefixOf cs then
    let m := (cs.drop uriPat.length).takeWhile Char.isAlphanum
    if m.isEmpty then none else some m
  else if urlPat.isPrefixOf cs then
    let m := (cs.drop urlPat.length).takeWhile Char.isAlphanum
    if m.isEmpty then none else some m
  else none

/-- Model of `re.search`: try the pattern at each position from the left,
leftmost successful match wins. -/
def reSearch (cs : List Char) : Option (List Char) :=
  match cs with
  | [] => none
  | _ :: rest =>
    match tryMatchAt cs with
    | some r => some r
    | none => reSearch rest

/-- Embedding of `extract_artist_id` (src/app.py lines 70-80): regex search
for an embedded URI or URL identifier, else the 22-character base62
fullmatch, else `none`. -/
def extract_artist_id (input_str : String) : Option String :=
  match reSearch input_str.toList with
  | some m => some (String.mk m)
  | none =>
    if input_str.toList.length = 22 ∧ input_str.toList.all Char.isAlphanum then
      some input_str
    else none

/-- Remote calls that `search_artist` can issue. -/
inductive SpCall where
  | artistLookup (id : String)
  | searchCall (q : String)
  deriving DecidableEq, Repr

/-- Embedding of `search_artist` (src/app.py lines 83-95) over oracles for
the wrapped `sp.artist` and `sp.search` calls; `searchApi` returns the
`artists.items` list of the response (`none` when the call failed or the
keys are missing). Also returns the list of remote calls issued. -/
def search_artist (lookupApi : String → Option Artist)
    (searchApi : String → Option (List Artist)) (name_or_id : String) :
    Option Artist × List SpCall :=
  match extract_artist_id name_or_id with
  | some artist_id => (lookupApi artist_id, [.artistLookup artist_id])
  | none =>
    let q := "artist:" ++ name_or_id
    match searchApi q with
    | some (a :: _) => (some a, [.searchCall q])
    | _ => (none, [.searchCall q])

/-- Model of the sort and filter key `x.get('popularity', 100)`. -/
def popD (a : Artist) : Nat := a.popularity.getD 100

/-- Embedding of `get_related_artists` (src/app.py lines 115-126) over
oracles for the wrapped `sp.artist_related_artists` call (its `artists`
list, `none` on failure) and the batch `sp.artists` call used by
`fetch_artist_details`. Python's stable ascending `list.sort` is modelled
by `List.mergeSort`. Source defaults: `num_artists=10`,
`popularity_threshold=60`. -/
def get_related_artists (relApi : String → Option (List Artist))
    (batchApi : List String → Option (List Artist)) (artist_id : String)
    (num_artists : Nat) (popularity_threshold : Nat) : List Artist :=
  match relApi artist_id with
  | none => []
  | some rel =>
    if rel.isEmpty then []
    else
      let ids := rel.map (fun a => a.id)
      let artists := fetch_artist_details batchApi ids
      let lesser := artists.filter (fun a => popD a < popularity_threshold)
      (lesser.mergeSort (fun a b => popD a ≤ popD b)).take num_artists

/-- Embedding of `get_artist_top_tracks` (src/app.py lines 129-134) over an
oracle for the wrapped `sp.artist_top_tracks` call, returning its `tracks`
field (`none` when the call failed). Source default: `num_tracks=2`. -/
def get_artist_top_tracks (api : String → Option (List ApiTrack))
    (artist_id : String) (num_tracks : Nat) : List ApiTrack :=
  match api artist_id with
  | some r => r.take num_tracks
  | none => []

/-- UTF-8 encoding of one character, as byte values. -/
def utf8Bytes (c : Char) : List Nat :=
  let n := c.toNat
  if n < 128 then [n]
  else if n < 2048 then [192 + n / 64, 128 + n % 64]
  else if n < 65536 then [224 + n / 4096, 128 + n / 64 % 64, 128 + n % 64]
  else [240 + n / 262144, 128 + n / 4096 % 64, 128 + n / 64 % 64, 128 + n % 64]

/-- Byte values `urllib.parse.quote_plus` leaves unescaped: ASCII letters,
digits, and the characters underscore, dot, dash, tilde. -/
def alwaysSafe (n : Nat) : Bool :=
  (65 ≤ n && n ≤ 90) || (97 ≤ n && n ≤ 122) || (48 ≤ n && n ≤ 57) ||
    n == 95 || n == 46 || n == 45 || n == 126

/-- Uppercase hexadecimal digit. -/
def hexDigit (n : Nat) : Char :=
  if n < 10 then Char.ofNat (48 + n) else Char.ofNat (55 + n)

/-- Encoding of one byte by `quote_plus`: a space becomes a plus sign, safe
bytes stay, everything else is percent-escaped. -/
def quoteByte (n : Nat) : List Char :=
  if n = 32 then ['+']
  else if alwaysSafe n then [Char.ofNat n]
  else ['%', hexDigit (n / 16), hexDigit (n % 16)]

/-- Model of `urllib.parse.quote_plus` on a UTF-8 string. -/
def quote_plus (s : String) : String :=
  String.mk (((s.toList.map utf8Bytes).flatten.map quoteByte).flatten)

/-- Embedding of `generate_streaming_links` (src/app.py lines 137-144): the
4-service single-track search URL mapping, in insertion order. -/
def generate_streaming_links (track_name artist_name : String) :
    List (String × String) :=
  let q := quote_plus (track_name ++ " " ++ artist_name)
  [("Spotify", "https://open.spotify.com/search/" ++ q),
   ("Apple Music", "https://music.apple.com/us/search?term=" ++ q),
   ("Deezer", "https://www.deezer.com/search/" ++ q),
   ("YouTube Music", "https://music.youtube.com/search?q=" ++ q)]

/-- Embedding of `generate_playlist_search_link` (src/app.py lines 147-159):
the 3-service mapping built from the first 4 playlist tracks; the empty
mapping on an empty list. -/
def generate_playlist_search_link (tracks : List PEntry) :
    List (String × String) :=
  if tracks.isEmpty then []
  else
    let parts := (tracks.take 4).map (fun t => t.name ++ " " ++ t.artist)
    let q := quote_plus (String.intercalate (", ") parts)
    [("Spotify", "https://open.spotify.com/search/" ++ q),
     ("Apple Music", "https://music.apple.com/us/search?term=" ++ q),
     ("Deezer", "https://www.deezer.com/search/" ++ q)]

/-- Target duration in milliseconds, `target_ms = 60*60*1000`
(src/app.py line 203). -/
def target_ms : Nat := 60 * 60 * 1000

/-- Embedding of the seed-track loop (src/app.py lines 205-208): every
fetched track is examined and appended only while the running total is
below the target; there is no break. -/
def addSeedTracks (seedName : String) :
    List ApiTrack → List PEntry → Nat → List PEntry × Nat
  | [], pl, total => (pl, total)
  | t :: rest, pl, total =>
    if total < target_ms then
      addSeedTracks seedName rest (pl ++ [⟨t.name, seedName, t.duration_ms⟩])
        (total + t.duration_ms)
    else
      addSeedTracks seedName rest pl total

/-- Embedding of the inner related-track loop (src/app.py lines 213-218):
appends while the total is below the target and breaks at the first
skipped track. -/
def addArtistTracks (artName : String) :
    List ApiTrack → List PEntry → Nat → List PEntry × Nat
  | [], pl, total => (pl, total)
  | t :: rest, pl, total =>
    if total < target_ms then
      addArtistTracks artName rest (pl ++ [⟨t.name, artName, t.duration_ms⟩])
        (total + t.duration_ms)
    else
      (pl, total)

/-- Embedding of the outer related-artist loop (src/app.py lines 210-218):
stops entirely once the target is reached, otherwise pulls up to 2 top
tracks for each artist in rank order. -/
def addRelatedTracks (api : String → Option (List ApiTrack)) :
    List Artist → List PEntry → Nat → List PEntry × Nat
  | [], pl, total => (pl, total)
  | art :: rest, pl, total =>
    if total ≥ target_ms then (pl, total)
    else
      let s := addArtistTracks art.name (get_artist_top_tracks api art.id 2) pl total
      addRelatedTracks api rest s.1 s.2

/-- Embedding of the playlist build (src/app.py lines 201-218): seed tracks
first, then related artists in rank order; returns the pair of the
playlist and `total_ms`. -/
def buildPlaylist (api : String → Option (List ApiTrack)) (seed : Artist)
    (related : List Artist) : List PEntry × Nat :=
  let s := addSeedTracks seed.name (get_artist_top_tracks api seed.id 2) [] 0
  addRelatedTracks api related s.1 s.2

/-- Total duration of a playlist fragment. -/
def sumDur (pl : List PEntry) : Nat := (pl.map (fun e => e.duration_ms)).sum

theorem sumDur_append (l₁ l₂ : List PEntry) :
    sumDur (l₁ ++ l₂) = sumDur l₁ + sumDur l₂ := by
  simp [sumDur]

/-- Helper: the wrapper never emits the halting event `st.stop`. -/
theorem stop_not_in_events {α : Type} (l : List (Outcome α)) :
    Event.stop ∉ (safe_sp_call l).2 := by
  induction l with
  | nil => simp [safe_sp_call]
  | cons o rest ih =>
    cases o with
    | success v => simp [safe_sp_call]
    | otherExc => simp [safe_sp_call]
    | spotifyExc status rA =>
      by_cases h429 : status = 429
      · subst h429
        simp [safe_sp_call, ih]
      · by_cases hauth : status = 401 ∨ status = 403
        · simp [safe_sp_call, h429, hauth]
        · by_cases h404 : status = 404
          · subst h404
            simp [safe_sp_call]
          · simp [safe_sp_call, h429, hauth, h404]

/-- C3 (amended): the wrapper returns `none` with no surfaced message on a
404; on a 401 or 403 it surfaces a user-visible error, does not retry
(the result is independent of any further outcomes), and returns `none`;
on any other API status or an unexpected exception it surfaces a warning
and returns `none`; and it never emits the halting event `st.stop`, so
request processing is not stopped by the wrapper itself. -/
theorem safe_sp_call_classification {α : Type} (rest : List (Outcome α))
    (rA : Option Nat) (status : Nat) :
    safe_sp_call (Outcome.spotifyExc 404 rA :: rest) = (none, []) ∧
    (status = 401 ∨ status = 403 →
      safe_sp_call (Outcome.spotifyExc status rA :: rest) =
        (none, [Event.errorMsg status])) ∧
    (status ≠ 429 → status ≠ 401 → status ≠ 403 → status ≠ 404 →
      safe_sp_call (Outcome.spotifyExc status rA :: rest) =
        (none, [Event.warning])) ∧
    safe_sp_call (Outcome.otherExc :: rest) = (none, [Event.warning]) ∧
    (∀ l : List (Outcome α), Event.stop ∉ (safe_sp_call l).2) := by
  refine ⟨by simp [safe_sp_call], ?_, ?_, by simp [safe_sp_call], stop_not_in_events⟩
  · intro h
    rcases h with h | h <;> subst h <;> simp [safe_sp_call]
  · intro h429 h401 h403 h404
    simp [safe_sp_call, h429, h401, h403, h404]

/-- Witness for C3 at concrete inputs: a 403 failure followed by further
potential outcomes yields an error message and no result. -/
theorem safe_sp_call_classification_witness :
    safe_sp_call (Outcome.spotifyExc 403 none :: [Outcome.success (7 : Nat)]) =
      (none, [Event.errorMsg 403]) :=
  (safe_sp_call_classification [Outcome.success (7 : Nat)] none 403).2.1
    (Or.inr rfl)

/-- Counterexample for C3 as stated: on a 401 authorization failure the
wrapper surfaces the error and returns `none`, but request processing is
not stopped — the halting event `st.stop` is never emitted. -/
theorem safe_sp_call_auth_no_stop_cex :
    safe_sp_call [(Outcome.spotifyExc 401 none : Outcome Nat)] =
      (none, [Event.errorMsg 401]) ∧
    Event.stop ∉ (safe_sp_call [(Outcome.spotifyExc 401 none : Outcome Nat)]).2 := by
  constructor
  · decide
  · decide

/-- C5: on a throttle outcome the wrapper sleeps exactly the advised delay
(default 1 when the Retry-After header is absent) and then returns the
result of retrying on the remaining outcomes; for any run of throttle
outcomes, the final result is that of the first non-throttle processing. -/
theorem safe_sp_call_throttle_retry {α : Type} (rA : Option Nat)
    (ts rest : List (Outcome α))
    (hts : ∀ o ∈ ts, ∃ r, o = Outcome.spotifyExc 429 r) :
    safe_sp_call (Outcome.spotifyExc 429 rA :: rest) =
      ((safe_sp_call rest).1, Event.sleep (rA.getD 1) :: (safe_sp_call rest).2) ∧
    (safe_sp_call (ts ++ rest)).1 = (safe_sp_call rest).1 := by
  constructor
  · simp [safe_sp_call]
  · induction ts with
    | nil => rfl
    | cons o ts ih =>
      obtain ⟨r, hr⟩ := hts o (List.mem_cons_self o ts)
      subst hr
      have h2 := ih (fun o ho => hts o (List.mem_cons_of_mem _ ho))
      simp [safe_sp_call, h2]

/-- Witness for C5: two successive throttle signals with advised delays 5
and absent (default 1) before a success yield the successful value. -/
theorem safe_sp_call_throttle_retry_witness :
    safe_sp_call (Outcome.spotifyExc 429 (some 5) :: [Outcome.success (7 : Nat)]) =
      ((safe_sp_call [Outcome.success (7 : Nat)]).1,
        Event.sleep 5 :: (safe_sp_call [Outcome.success (7 : Nat)]).2) ∧
    (safe_sp_call ([Outcome.spotifyExc 429 (some 5), Outcome.spotifyExc 429 none] ++
      [Outcome.success (7 : Nat)])).1 = some 7 := by
  have h := safe_sp_call_throttle_retry (some 5)
    [Outcome.spotifyExc 429 (some 5), Outcome.spotifyExc 429 none]
    [Outcome.success (7 : Nat)]
    (by
      intro o ho
      simp only [List.mem_cons, List.mem_singleton, List.not_mem_nil, or_false] at ho
      rcases ho with h1 | h1
      · exact ⟨some 5, h1⟩
      · exact ⟨none, h1⟩)
  exact ⟨h.1, by rw [h.2]; decide⟩

/-- Helper: number of chunks is the ceiling of the length divided by 50. -/
theorem chunked50_length {α : Type} (l : List α) :
    (chunked50 l).length = (l.length + 49) / 50 := by
  induction l using chunked50.induct with
  | case1 => simp [chunked50]
  | case2 x xs ih =>
    rw [chunked50]
    simp only [List.length_cons, List.length_drop] at ih ⊢
    rw [ih]
    have h1 : (xs.length - 49 + 49) / 50 = xs.length / 50 := by
      rcases Nat.le_total xs.length 49 with h | h
      · have e1 : xs.length - 49 = 0 := by omega
        have e2 : xs.length / 50 = 0 := Nat.div_eq_of_lt (by omega)
        simp [e1, e2]
      · have e1 : xs.length - 49 + 49 = xs.length := by omega
        rw [e1]
    have h2 : xs.length + 1 + 49 = xs.length + 50 := by omega
    rw [h1, h2, Nat.add_div_right _ (by omega)]

/-- Helper: every chunk has at most 50 elements. -/
theorem chunked50_chunk_le {α : Type} (l : List α) :
    ∀ c ∈ chunked50 l, c.length ≤ 50 := by
  induction l using chunked50.induct with
  | case1 => simp [chunked50]
  | case2 x xs ih =>
    rw [chunked50]
    intro c hc
    rcases List.mem_cons.mp hc with h | h
    · subst h
      simp only [List.length_cons, List.length_take]
      omega
    · exact ih c h

/-- Helper: the chunk fold concatenates per-chunk results in chunk order. -/
theorem foldl_chunks_eq (api : List String → Option (List Artist))
    (chunks : List (List String)) (acc : List Artist) :
    chunks.foldl (fun details chunk =>
      match api chunk with
      | some arts => if arts.isEmpty then details else details ++ arts
      | none => details) acc =
    acc ++ chunks.flatMap (fun c => (api c).getD []) := by
  induction chunks generalizing acc with
  | nil => simp
  | cons c cs ih =>
    simp only [List.foldl_cons, List.flatMap_cons]
    cases h : api c with
    | none => rw [ih]; simp [Option.getD]
    | some arts =>
      by_cases he : arts.isEmpty
      · have : arts = [] := List.isEmpty_iff.mp he
        subst this
        simp only [he, if_pos]
        rw [ih]
        simp [Option.getD]
      · simp only [he, if_neg, Bool.false_eq_true, not_false_iff]
        rw [ih]
        simp [Option.getD, List.append_assoc]

/-- C4: on a list of M identifiers the batch fetcher issues exactly
one `sp.artists` call per chunk, that is ⌈M/50⌉ calls, no call carries
more than 50 identifiers, and the successful per-chunk results are
concatenated in chunk order. -/
theorem fetch_artist_details_batching
    (api : List String → Option (List Artist)) (ids : List String) :
    (fetch_calls ids).length = (ids.length + 49) / 50 ∧
    (∀ c ∈ fetch_calls ids, c.length ≤ 50) ∧
    fetch_artist_details api ids =
      (fetch_calls ids).flatMap (fun c => (api c).getD []) := by
  refine ⟨chunked50_length ids, chunked50_chunk_le ids, ?_⟩
  unfold fetch_artist_details fetch_calls
  rw [foldl_chunks_eq]
  simp

/-- Witness for C4: 3 identifiers are fetched in a single call of 3
identifiers, and 51 identifiers take two calls. -/
theorem fetch_artist_details_batching_witness :
    (fetch_calls ["a", "b", "c"]).length = 1 ∧
    (fetch_calls (List.replicate 51 ("a" : String))).length = 2 ∧
    fetch_artist_details (fun _ => some [⟨"i", "n", some 7⟩]) ["a", "b", "c"] =
      [⟨"i", "n", some 7⟩] := by
  refine ⟨(fetch_artist_details_batching (fun _ => none) ["a", "b", "c"]).1, ?_, ?_⟩
  · rw [(fetch_artist_details_batching (fun _ => none) (List.replicate 51 ("a" : String))).1]
    decide
  · rw [(fetch_artist_details_batching (fun _ => some [⟨"i", "n", some 7⟩]) ["a", "b", "c"]).2.2]
    simp [fetch_calls, chunked50]

/-- C9 (amended): on a nonempty track list the multi-track link generator
returns exactly 3 entries whose service keys are, in order, those of the
4-service single-track variant with YouTube Music omitted; the output
depends only on the first 4 tracks, and the query phrase is the
URL-encoded comma-space-join of their name-artist parts. On the empty
list it returns the empty mapping instead. -/
theorem playlist_link_entries (tracks : List PEntry) (tn an : String)
    (h : tracks ≠ []) :
    (generate_playlist_search_link tracks).length = 3 ∧
    (generate_playlist_search_link tracks).map Prod.fst ++ ["YouTube Music"] =
      (generate_streaming_links tn an).map Prod.fst ∧
    generate_playlist_search_link tracks =
      generate_playlist_search_link (tracks.take 4) ∧
    (generate_playlist_search_link tracks).head? = some ("Spotify",
      "https://open.spotify.com/search/" ++
        quote_plus (String.intercalate (", ")
          ((tracks.take 4).map (fun t => t.name ++ " " ++ t.artist)))) := by
  have hne : tracks.isEmpty = false := by
    cases tracks with
    | nil => exact absurd rfl h
    | cons a l => rfl
  have hne4 : (tracks.take 4).isEmpty = false := by
    cases tracks with
    | nil => exact absurd rfl h
    | cons a l => rfl
  refine ⟨?_, ?_, ?_, ?_⟩
  · simp [generate_playlist_search_link, hne]
  · simp [generate_playlist_search_link, generate_streaming_links, hne]
  · simp only [generate_playlist_search_link, hne, hne4, Bool.false_eq_true,
      if_neg, not_false_iff, List.take_take]
    norm_num
  · simp [generate_playlist_search_link, hne]

/-- Witness for C9 at a concrete single-track playlist. -/
theorem playlist_link_entries_witness :
    (generate_playlist_search_link [⟨"Song", "Artist", 100⟩]).length = 3 :=
  (playlist_link_entries [⟨"Song", "Artist", 100⟩] "x" "y" (by decide)).1

/-- Counterexample for C9 as stated: on the empty track list the mapping is
empty, not a 3-entry mapping. -/
theorem playlist_link_empty_cex :
    generate_playlist_search_link [] = [] ∧
    (generate_playlist_search_link []).length ≠ 3 := by
  constructor
  · rfl
  · decide

/-- Helper: the seed loop keeps the running total below target plus the
largest track duration. -/
theorem addSeedTracks_lt (n : String) (ts : List ApiTrack) (d : Nat)
    (hd : ∀ t ∈ ts, t.duration_ms ≤ d) :
    ∀ pl total, total < target_ms + d →
      (addSeedTracks n ts pl total).2 < target_ms + d := by
  induction ts with
  | nil => intro pl total h; exact h
  | cons t rest ih =>
    intro pl total h
    have hdt : t.duration_ms ≤ d := hd t (List.mem_cons_self t rest)
    have hd2 : ∀ t2 ∈ rest, t2.duration_ms ≤ d :=
      fun t2 h2 => hd t2 (List.mem_cons_of_mem _ h2)
    rw [addSeedTracks]
    by_cases hc : total < target_ms
    · rw [if_pos hc]
      exact ih hd2 _ _ (by omega)
    · rw [if_neg hc]
      exact ih hd2 _ _ h

/-- Helper: the inner related-track loop keeps the running total below
target plus the largest track duration. -/
theorem addArtistTracks_lt (n : String) (ts : List ApiTrack) (d : Nat)
    (hd : ∀ t ∈ ts, t.duration_ms ≤ d) :
    ∀ pl total, total < target_ms + d →
      (addArtistTracks n ts pl total).2 < target_ms + d := by
  induction ts with
  | nil => intro pl total h; exact h
  | cons t rest ih =>
    intro pl total h
    have hdt : t.duration_ms ≤ d := hd t (List.mem_cons_self t rest)
    have hd2 : ∀ t2 ∈ rest, t2.duration_ms ≤ d :=
      fun t2 h2 => hd t2 (List.mem_cons_of_mem _ h2)
    rw [addArtistTracks]
    by_cases hc : total < target_ms
    · rw [if_pos hc]
      exact ih hd2 _ _ (by omega)
    · rw [if_neg hc]
      exact h

/-- Helper: the outer related-artist loop keeps the running total below
target plus the largest track duration. -/
theorem addRelatedTracks_lt (api : String → Option (List ApiTrack))
    (arts : List Artist) (d : Nat)
    (hd : ∀ id t, t ∈ get_artist_top_tracks api id 2 → t.duration_ms ≤ d) :
    ∀ pl total, total < target_ms + d →
      (addRelatedTracks api arts pl total).2 < target_ms + d := by
  induction arts with
  | nil => intro pl total h; exact h
  | cons a rest ih =>
    intro pl total h
    rw [addRelatedTracks]
    by_cases hc : total ≥ target_ms
    · rw [if_pos hc]; exact h
    · rw [if_neg hc]
      exact ih _ _ (addArtistTracks_lt a.name _ d (fun t ht => hd a.id t ht) pl total h)

/-- C1 (amended): the before-each-append check bounds the final total only
by target plus one track duration: whenever every fetchable top track
lasts at most `d` milliseconds, the built playlist total is strictly
below `target_ms + d`. The total can exceed `target_ms` itself (see the
counterexample). -/
theorem buildPlaylist_total_overshoot_bound
    (api : String → Option (List ApiTrack)) (seed : Artist)
    (related : List Artist) (d : Nat)
    (hd : ∀ id t, t ∈ get_artist_top_tracks api id 2 → t.duration_ms ≤ d) :
    (buildPlaylist api seed related).2 < target_ms + d := by
  unfold buildPlaylist
  refine addRelatedTracks_lt api related d hd _ _ ?_
  refine addSeedTracks_lt seed.name _ d (fun t ht => hd seed.id t ht) _ _ ?_
  have : 0 < target_ms := by decide
  omega

/-- Witness for C1 at a concrete oracle whose single track lasts 100 ms. -/
theorem buildPlaylist_total_overshoot_bound_witness :
    (buildPlaylist (fun _ => some [⟨"T", 100⟩]) ⟨"s", "Seed", none⟩ []).2 <
      target_ms + 100 := by
  refine buildPlaylist_total_overshoot_bound _ _ _ 100 ?_
  intro id t ht
  simp only [get_artist_top_tracks, List.take] at ht
  rcases List.mem_singleton.mp ht with h
  rw [h]

/-- Counterexample for C1 as stated: one 4,000,000 ms seed track is appended
while the total is still 0 < target, making the final total 4,000,000 ms,
which exceeds the 3,600,000 ms target. -/
theorem buildPlaylist_total_exceeds_target_cex :
    (buildPlaylist (fun _ => some [⟨"Long Track", 4000000⟩])
      ⟨"s", "Seed", none⟩ []).2 = 4000000 ∧
    target_ms < 4000000 := by
  constructor
  · rfl
  · decide

/-- Helper: full characterisation of the seed loop: it appends a block of
entries carrying the seed name whose durations come from the fetched
tracks, adds their total duration, and appends at least one entry when
the target is not yet reached and a track was fetched. -/
theorem addSeedTracks_spec (n : String) (ts : List ApiTrack) :
    ∀ pl total, ∃ new : List PEntry,
      addSeedTracks n ts pl total = (pl ++ new, total + sumDur new) ∧
      (∀ e ∈ new, PEntry.artist e = n) ∧
      (∀ e ∈ new, ∃ t ∈ ts, PEntry.duration_ms e = ApiTrack.duration_ms t) ∧
      (total < target_ms → ts ≠ [] → new ≠ []) := by
  induction ts with
  | nil =>
    intro pl total
    exact ⟨[], by simp [addSeedTracks, sumDur], by simp, by simp,
      fun _ h => absurd rfl h⟩
  | cons t rest ih =>
    intro pl total
    by_cases hc : total < target_ms
    · obtain ⟨new, h1, h2, h3, _⟩ :=
        ih (pl ++ [⟨t.name, n, t.duration_ms⟩]) (total + t.duration_ms)
      refine ⟨⟨t.name, n, t.duration_ms⟩ :: new, ?_, ?_, ?_, by simp⟩
      · rw [addSeedTracks, if_pos hc, h1]
        simp only [sumDur, List.map_cons, List.sum_cons, Prod.mk.injEq]
        constructor
        · simp
        · omega
      · intro e he
        rcases List.mem_cons.mp he with h | h
        · subst h; rfl
        · exact h2 e h
      · intro e he
        rcases List.mem_cons.mp he with h | h
        · subst h; exact ⟨t, List.mem_cons_self t rest, rfl⟩
        · obtain ⟨t2, ht2, he2⟩ := h3 e h
          exact ⟨t2, List.mem_cons_of_mem _ ht2, he2⟩
    · obtain ⟨new, h1, h2, h3, _⟩ := ih pl total
      refine ⟨new, ?_, h2, ?_, fun hlt => absurd hlt hc⟩
      · rw [addSeedTracks, if_neg hc]
        exact h1
      · intro e he
        obtain ⟨t2, ht2, he2⟩ := h3 e he
        exact ⟨t2, List.mem_cons_of_mem _ ht2, he2⟩

/-- Helper: same characterisation for the inner related-track loop, which
breaks at the first skipped track. -/
theorem addArtistTracks_spec (n : String) (ts : List ApiTrack) :
    ∀ pl total, ∃ new : List PEntry,
      addArtistTracks n ts pl total = (pl ++ new, total + sumDur new) ∧
      (∀ e ∈ new, PEntry.artist e = n) ∧
      (∀ e ∈ new, ∃ t ∈ ts, PEntry.duration_ms e = ApiTrack.duration_ms t) ∧
      (total < target_ms → ts ≠ [] → new ≠ []) := by
  induction ts with
  | nil =>
    intro pl total
    exact ⟨[], by simp [addArtistTracks, sumDur], by simp, by simp,
      fun _ h => absurd rfl h⟩
  | cons t rest ih =>
    intro pl total
    by_cases hc : total < target_ms
    · obtain ⟨new, h1, h2, h3, _⟩ :=
        ih (pl ++ [⟨t.name, n, t.duration_ms⟩]) (total + t.duration_ms)
      refine ⟨⟨t.name, n, t.duration_ms⟩ :: new, ?_, ?_, ?_, by simp⟩
      · rw [addArtistTracks, if_pos hc, h1]
        simp only [sumDur, List.map_cons, List.sum_cons, Prod.mk.injEq]
        constructor
        · simp
        · omega
      · intro e he
        rcases List.mem_cons.mp he with h | h
        · subst h; rfl
        · exact h2 e h
      · intro e he
        rcases List.mem_cons.mp he with h | h
        · subst h; exact ⟨t, List.mem_cons_self t rest, rfl⟩
        · obtain ⟨t2, ht2, he2⟩ := h3 e h
          exact ⟨t2, List.mem_cons_of_mem _ ht2, he2⟩
    · refine ⟨[], ?_, by simp, by simp, fun hlt => absurd hlt hc⟩
      rw [addArtistTracks, if_neg hc]
      simp [sumDur]

/-- Helper: a replicated empty block satisfies any per-artist relation that
holds vacuously. -/
theorem forall₂_replicate_nil {R : List PEntry → Artist → Prop}
    (h : ∀ a, R [] a) :
    ∀ l : List Artist, List.Forall₂ R (List.replicate l.length []) l
  | [] => List.Forall₂.nil
  | a :: l => List.Forall₂.cons (h a) (forall₂_replicate_nil h l)

/-- Helper: flattening replicated empty lists gives the empty list. -/
theorem flatten_replicate_nil (n : Nat) :
    (List.replicate n ([] : List PEntry)).flatten = [] := by
  induction n with
  | zero => rfl
  | succ n ih => simp [List.replicate_succ, ih]

/-- Helper: full characterisation of the outer related-artist loop: it
appends one block per candidate, in candidate order, each block carrying
that candidate's name and durations from that candidate's fetched
tracks. -/
theorem addRelatedTracks_spec (api : String → Option (List ApiTrack))
    (arts : List Artist) :
    ∀ pl total, ∃ parts : List (List PEntry),
      addRelatedTracks api arts pl total =
        (pl ++ parts.flatten, total + sumDur parts.flatten) ∧
      List.Forall₂ (fun part art => ∀ e ∈ part, PEntry.artist e = Artist.name art)
        parts arts ∧
      (∀ e ∈ parts.flatten, ∃ a ∈ arts, ∃ t ∈ get_artist_top_tracks api a.id 2,
        PEntry.duration_ms e = ApiTrack.duration_ms t) := by
  induction arts with
  | nil =>
    intro pl total
    exact ⟨[], by simp [addRelatedTracks, sumDur], List.Forall₂.nil, by simp⟩
  | cons a rest ih =>
    intro pl total
    by_cases hc : total ≥ target_ms
    · refine ⟨List.replicate (a :: rest).length [], ?_, ?_, ?_⟩
      · rw [addRelatedTracks, if_pos hc, flatten_replicate_nil]
        simp [sumDur]
      · exact forall₂_replicate_nil (fun a2 => by simp) _
      · rw [flatten_replicate_nil]
        simp
    · obtain ⟨new, h1, h2, h3, _⟩ :=
        addArtistTracks_spec a.name (get_artist_top_tracks api a.id 2) pl total
      obtain ⟨parts, g1, g2, g3⟩ := ih (pl ++ new) (total + sumDur new)
      refine ⟨new :: parts, ?_, List.Forall₂.cons h2 g2, ?_⟩
      · rw [addRelatedTracks, if_neg hc, h1, g1]
        simp [List.flatten_cons, sumDur_append, List.append_assoc, Nat.add_assoc]
      · intro e he
        rw [List.flatten_cons] at he
        rcases List.mem_append.mp he with h | h
        · obtain ⟨t, ht, he2⟩ := h3 e h
          exact ⟨a, List.mem_cons_self a rest, t, ht, he2⟩
        · obtain ⟨a2, ha2, t, ht, he2⟩ := g3 e h
          exact ⟨a2, List.mem_cons_of_mem _ ha2, t, ht, he2⟩

/-- Helper: if the outer loop produces an empty playlist then it started
empty and, when the target was not yet reached, every candidate's track
fetch was empty. -/
theorem addRelatedTracks_nil (api : String → Option (List ApiTrack))
    (arts : List Artist) :
    ∀ pl total, (addRelatedTracks api arts pl total).1 = [] →
      pl = [] ∧
      (total < target_ms → ∀ a ∈ arts, get_artist_top_tracks api a.id 2 = []) := by
  induction arts with
  | nil =>
    intro pl total h
    rw [addRelatedTracks] at h
    exact ⟨h, by simp⟩
  | cons a rest ih =>
    intro pl total h
    by_cases hc : total ≥ target_ms
    · rw [addRelatedTracks, if_pos hc] at h
      exact ⟨h, fun hlt => absurd hlt (by omega)⟩
    · rw [addRelatedTracks, if_neg hc] at h
      obtain ⟨new, h1, h2, h3, h4⟩ :=
        addArtistTracks_spec a.name (get_artist_top_tracks api a.id 2) pl total
      rw [h1] at h
      obtain ⟨hpl, hrest⟩ := ih _ _ h
      have hpl2 := List.append_eq_nil.mp hpl
      refine ⟨hpl2.1, ?_⟩
      intro hlt a2 ha2
      rcases List.mem_cons.mp ha2 with h5 | h5
      · subst h5
        by_contra hne
        exact (h4 hlt hne) hpl2.2
      · have hz : sumDur new = 0 := by rw [hpl2.2]; simp [sumDur]
        exact hrest (by omega) a2 h5

/-- Helper: a playlist fragment of positive-duration entries with total
duration zero is empty. -/
theorem sumDur_zero_nil (l : List PEntry)
    (hpos : ∀ e ∈ l, 0 < PEntry.duration_ms e) (hz : sumDur l = 0) : l = [] := by
  cases l with
  | nil => rfl
  | cons e l =>
    have h0 := hpos e (List.mem_cons_self e l)
    simp only [sumDur, List.map_cons, List.sum_cons] at hz
    omega

/-- C6: when every fetchable top track has positive duration (as the data
model requires), the recorded total is exactly the sum of the playlist
entries' durations; the total is 0 exactly when no tracks were
retrievable (the seed fetch and every candidate fetch came back empty);
a nonzero total means a non-empty playlist; and the playlist decomposes
as seed-named entries first, followed by one block per candidate in rank
order, each block carrying that candidate's name. -/
theorem buildPlaylist_total_sum (api : String → Option (List ApiTrack))
    (seed : Artist) (related : List Artist)
    (hpos : ∀ id t, t ∈ get_artist_top_tracks api id 2 → 0 < ApiTrack.duration_ms t) :
    (buildPlaylist api seed related).2 = sumDur (buildPlaylist api seed related).1 ∧
    ((buildPlaylist api seed related).2 = 0 ↔
      (get_artist_top_tracks api seed.id 2 = [] ∧
        ∀ a ∈ related, get_artist_top_tracks api a.id 2 = [])) ∧
    ((buildPlaylist api seed related).2 ≠ 0 → (buildPlaylist api seed related).1 ≠ []) ∧
    (∃ seedPart parts, (buildPlaylist api seed related).1 = seedPart ++ parts.flatten ∧
      (∀ e ∈ seedPart, PEntry.artist e = Artist.name seed) ∧
      List.Forall₂ (fun part art => ∀ e ∈ part, PEntry.artist e = Artist.name art)
        parts related) := by
  obtain ⟨new, hs1, hs2, hs3, hs4⟩ :=
    addSeedTracks_spec seed.name (get_artist_top_tracks api seed.id 2) [] 0
  obtain ⟨parts, hr1, hr2, hr3⟩ :=
    addRelatedTracks_spec api related new (sumDur new)
  have hb : buildPlaylist api seed related =
      (new ++ parts.flatten, sumDur new + sumDur parts.flatten) := by
    unfold buildPlaylist
    rw [hs1]
    simp only [List.nil_append, Nat.zero_add]
    exact hr1
  refine ⟨?_, ⟨?_, ?_⟩, ?_, ?_⟩
  · rw [hb, sumDur_append]
  · intro hz
    rw [hb] at hz
    simp only at hz
    have hz1 : sumDur new = 0 := by omega
    have hz2 : sumDur parts.flatten = 0 := by omega
    have hnew : new = [] := by
      refine sumDur_zero_nil new ?_ hz1
      intro e he
      obtain ⟨t, ht, he2⟩ := hs3 e he
      rw [he2]
      exact hpos seed.id t ht
    have hflat : parts.flatten = [] := by
      refine sumDur_zero_nil parts.flatten ?_ hz2
      intro e he
      obtain ⟨a, _, t, ht, he2⟩ := hr3 e he
      rw [he2]
      exact hpos a.id t ht
    constructor
    · by_contra hne
      exact (hs4 (by decide) hne) hnew
    · have hn : (addRelatedTracks api related new (sumDur new)).1 = [] := by
        rw [hr1, hnew, hflat]
        rfl
      have hlt : sumDur new < target_ms := by
        rw [hnew]
        decide
      exact (addRelatedTracks_nil api related new (sumDur new) hn).2 hlt
  · intro hdone
    have hnew : new = [] := by
      refine List.eq_nil_iff_forall_not_mem.mpr ?_
      intro e he
      obtain ⟨t, ht, _⟩ := hs3 e he
      rw [hdone.1] at ht
      exact absurd ht (List.not_mem_nil t)
    have hflat : parts.flatten = [] := by
      refine List.eq_nil_iff_forall_not_mem.mpr ?_
      intro e he
      obtain ⟨a, ha, t, ht, _⟩ := hr3 e he
      rw [hdone.2 a ha] at ht
      exact absurd ht (List.not_mem_nil t)
    rw [hb, hnew, hflat]
    rfl
  · intro hnz hnil
    rw [hb] at hnz hnil
    simp only at hnz hnil
    have := List.append_eq_nil.mp hnil
    rw [this.1, this.2] at hnz
    simp [sumDur] at hnz
  · refine ⟨new, parts, ?_, hs2, hr2⟩
    rw [hb]

/-- Witness for C6 at a concrete oracle: one 100 ms seed track and no
candidates give total 100, the sum of the single entry's duration. -/
theorem buildPlaylist_total_sum_witness :
    (buildPlaylist (fun _ => some [⟨"T", 100⟩]) ⟨"s", "Seed", none⟩ []).2 =
      sumDur (buildPlaylist (fun _ => some [⟨"T", 100⟩]) ⟨"s", "Seed", none⟩ []).1 ∧
    (buildPlaylist (fun _ => some [⟨"T", 100⟩]) ⟨"s", "Seed", none⟩ []).2 ≠ 0 := by
  have h := buildPlaylist_total_sum (fun _ => some [⟨"T", 100⟩]) ⟨"s", "Seed", none⟩ []
    (by
      intro id t ht
      simp only [get_artist_top_tracks, List.take] at ht
      rcases List.mem_singleton.mp ht with h2
      rw [h2]
      decide)
  exact ⟨h.1, by decide⟩

/-- Helper: the popularity comparison is transitive. -/
theorem popLe_trans : ∀ a b c : Artist,
    (fun a b : Artist => (popD a ≤ popD b : Bool)) a b = true →
    (fun a b : Artist => (popD a ≤ popD b : Bool)) b c = true →
    (fun a b : Artist => (popD a ≤ popD b : Bool)) a c = true := by
  intro a b c h1 h2
  simp only [decide_eq_true_eq] at h1 h2 ⊢
  omega

/-- Helper: the popularity comparison is total. -/
theorem popLe_total : ∀ a b : Artist,
    ((fun a b : Artist => (popD a ≤ popD b : Bool)) a b ||
      (fun a b : Artist => (popD a ≤ popD b : Bool)) b a) = true := by
  intro a b
  simp only [Bool.or_eq_true, decide_eq_true_eq]
  omega

/-- Helper: the expander returns the empty list when the related-artists
call failed. -/
theorem get_related_artists_eq_none
    (relApi : String → Option (List Artist))
    (batchApi : List String → Option (List Artist))
    (artist_id : String) (N T : Nat) (h : relApi artist_id = none) :
    get_related_artists relApi batchApi artist_id N T = [] := by
  unfold get_related_artists
  rw [h]

/-- Helper: the expander returns the empty list when the related-artists
call returned an empty list. -/
theorem get_related_artists_eq_empty
    (relApi : String → Option (List Artist))
    (batchApi : List String → Option (List Artist))
    (artist_id : String) (N T : Nat) (rel : List Artist)
    (h : relApi artist_id = some rel) (h2 : rel.isEmpty = true) :
    get_related_artists relApi batchApi artist_id N T = [] := by
  unfold get_related_artists
  rw [h]
  simp only [h2, if_true]

/-- Helper: on a non-empty relation list the expander is filter, stable
ascending sort, then truncation. -/
theorem get_related_artists_eq
    (relApi : String → Option (List Artist))
    (batchApi : List String → Option (List Artist))
    (artist_id : String) (N T : Nat) (rel : List Artist)
    (h : relApi artist_id = some rel) (h2 : rel.isEmpty = false) :
    get_related_artists relApi batchApi artist_id N T =
      (((fetch_artist_details batchApi (rel.map (fun a => a.id))).filter
          (fun a => popD a < T)).mergeSort
        (fun a b => popD a ≤ popD b)).take N := by
  unfold get_related_artists
  rw [h]
  simp only [h2, Bool.false_eq_true, if_false]

/-- C2: the candidate set is sorted ascending by popularity; every member
has popularity strictly below T (so an artist with no popularity field,
treated as 100, is excluded whenever T ≤ 100, and every member then has
a popularity field); its length is at most N; and it is the
N-truncation of a stable sort of the filtered detail list, so two
members tying on popularity and appearing in relation order in the
filtered list stay in that order through the sort. -/
theorem get_related_artists_invariants
    (relApi : String → Option (List Artist))
    (batchApi : List String → Option (List Artist))
    (artist_id : String) (N T : Nat) :
    List.Pairwise (fun a b => popD a ≤ popD b)
      (get_related_artists relApi batchApi artist_id N T) ∧
    (∀ a ∈ get_related_artists relApi batchApi artist_id N T, popD a < T) ∧
    (T ≤ 100 → ∀ a ∈ get_related_artists relApi batchApi artist_id N T,
      (Artist.popularity a).isSome) ∧
    (get_related_artists relApi batchApi artist_id N T).length ≤ N ∧
    (∀ rel, relApi artist_id = some rel → rel.isEmpty = false →
      get_related_artists relApi batchApi artist_id N T =
        (((fetch_artist_details batchApi (rel.map (fun a => a.id))).filter
            (fun a => popD a < T)).mergeSort
          (fun a b => popD a ≤ popD b)).take N ∧
      ∀ a b : Artist, popD a = popD b →
        [a, b].Sublist
          ((fetch_artist_details batchApi (rel.map (fun a => a.id))).filter
            (fun a => popD a < T)) →
        [a, b].Sublist
          (((fetch_artist_details batchApi (rel.map (fun a => a.id))).filter
              (fun a => popD a < T)).mergeSort
            (fun a b => popD a ≤ popD b))) := by
  have hmem_lt : ∀ a ∈ get_related_artists relApi batchApi artist_id N T,
      popD a < T := by
    intro a ha
    cases hrel : relApi artist_id with
    | none =>
      rw [get_related_artists_eq_none relApi batchApi artist_id N T hrel] at ha
      cases ha
    | some rel =>
      cases hre : rel.isEmpty with
      | true =>
        rw [get_related_artists_eq_empty relApi batchApi artist_id N T rel hrel hre] at ha
        cases ha
      | false =>
        rw [get_related_artists_eq relApi batchApi artist_id N T rel hrel hre] at ha
        have h1 := List.mem_mergeSort.mp (List.mem_of_mem_take ha)
        exact of_decide_eq_true (List.mem_filter.mp h1).2
  refine ⟨?_, hmem_lt, ?_, ?_, ?_⟩
  · cases hrel : relApi artist_id with
    | none =>
      rw [get_related_artists_eq_none relApi batchApi artist_id N T hrel]
      exact List.Pairwise.nil
    | some rel =>
      cases hre : rel.isEmpty with
      | true =>
        rw [get_related_artists_eq_empty relApi batchApi artist_id N T rel hrel hre]
        exact List.Pairwise.nil
      | false =>
        rw [get_related_artists_eq relApi batchApi artist_id N T rel hrel hre]
        have hs := List.sorted_mergeSort popLe_trans popLe_total
          ((fetch_artist_details batchApi (rel.map (fun a => a.id))).filter
            (fun a => popD a < T))
        have ht := List.Pairwise.sublist (List.take_sublist N _) hs
        exact ht.imp (fun h => of_decide_eq_true h)
  · intro hT a ha
    have hlt := hmem_lt a ha
    cases hp : a.popularity with
    | none =>
      exfalso
      have hp2 : popD a = 100 := by simp [popD, hp]
      omega
    | some v => rfl
  · cases hrel : relApi artist_id with
    | none =>
      rw [get_related_artists_eq_none relApi batchApi artist_id N T hrel]
      simp
    | some rel =>
      cases hre : rel.isEmpty with
      | true =>
        rw [get_related_artists_eq_empty relApi batchApi artist_id N T rel hrel hre]
        simp
      | false =>
        rw [get_related_artists_eq relApi batchApi artist_id N T rel hrel hre]
        exact List.length_take_le N _
  · intro rel h h2
    refine ⟨get_related_artists_eq relApi batchApi artist_id N T rel h h2, ?_⟩
    intro a b hpop hsub
    refine List.pair_sublist_mergeSort popLe_trans popLe_total ?_ hsub
    simp only [decide_eq_true_eq]
    omega

/-- Witness for C2 at a concrete pair of oracles and T = 60 ≤ 100. -/
theorem get_related_artists_invariants_witness :
    (∀ a ∈ get_related_artists (fun _ => some [⟨"a1", "n1", some 50⟩])
        (fun _ => some [⟨"b1", "A", some 50⟩, ⟨"b2", "B", some 30⟩]) ("seed") 10 60,
      (Artist.popularity a).isSome) ∧
    (get_related_artists (fun _ => some [⟨"a1", "n1", some 50⟩])
      (fun _ => some [⟨"b1", "A", some 50⟩, ⟨"b2", "B", some 30⟩]) ("seed") 10 60).length ≤ 10 ∧
    get_related_artists (fun _ => some [⟨"a1", "n1", some 50⟩])
        (fun _ => some [⟨"b1", "A", some 50⟩, ⟨"b2", "B", some 30⟩]) ("seed") 10 60 =
      (((fetch_artist_details (fun _ => some [⟨"b1", "A", some 50⟩, ⟨"b2", "B", some 30⟩])
            (([⟨"a1", "n1", some 50⟩] : List Artist).map (fun a => a.id))).filter
          (fun a => popD a < 60)).mergeSort
        (fun a b => popD a ≤ popD b)).take 10 := by
  have h := get_related_artists_invariants (fun _ => some [⟨"a1", "n1", some 50⟩])
    (fun _ => some [⟨"b1", "A", some 50⟩, ⟨"b2", "B", some 30⟩]) ("seed") 10 60
  exact ⟨h.2.2.1 (by decide), h.2.2.2.1,
    (h.2.2.2.2 [⟨"a1", "n1", some 50⟩] rfl rfl).1⟩

/-- Helper: no pattern alternative at this position means no match here. -/
theorem tryMatchAt_eq_none_of (cs : List Char)
    (h1 : uriPat.isPrefixOf cs = false) (h2 : urlPat.isPrefixOf cs = false) :
    tryMatchAt cs = none := by
  simp only [tryMatchAt, h1, h2, Bool.false_eq_true, if_false]

/-- Helper: the greedy alphanumeric capture takes exactly the run `m` when
everything in `m` is alphanumeric and the remainder starts with a
non-alphanumeric character (or is empty). -/
theorem takeWhile_append_run (f : Char → Bool) (m suf : List Char)
    (h1 : ∀ c ∈ m, f c = true) (h2 : ∀ c, suf.head? = some c → f c = false) :
    (m ++ suf).takeWhile f = m := by
  induction m with
  | nil =>
    cases suf with
    | nil => rfl
    | cons c cs => simp [List.takeWhile_cons, h2 c rfl]
  | cons a m ih =>
    have ha := h1 a (List.mem_cons_self a m)
    simp [List.takeWhile_cons, ha,
      ih (fun c hc => h1 c (List.mem_cons_of_mem _ hc))]

/-- Helper: an all-alphanumeric suffix contains neither pattern, since both
patterns contain a non-alphanumeric character. -/
theorem tryMatchAt_none_of_alnum (cs : List Char)
    (h : ∀ c ∈ cs, c.isAlphanum = true) : tryMatchAt cs = none := by
  have hu : uriPat.isPrefixOf cs = false := by
    cases hp : uriPat.isPrefixOf cs with
    | false => rfl
    | true =>
      exfalso
      have hpre := List.isPrefixOf_iff_prefix.mp hp
      have hmem : (':' : Char) ∈ cs := hpre.subset (by decide)
      have := h _ hmem
      exact absurd this (by decide)
  have hr : urlPat.isPrefixOf cs = false := by
    cases hp : urlPat.isPrefixOf cs with
    | false => rfl
    | true =>
      exfalso
      have hpre := List.isPrefixOf_iff_prefix.mp hp
      have hmem : ('.' : Char) ∈ cs := hpre.subset (by decide)
      have := h _ hmem
      exact absurd this (by decide)
  exact tryMatchAt_eq_none_of cs hu hr

/-- Helper: the regex search fails on an all-alphanumeric string. -/
theorem reSearch_none_of_alnum (cs : List Char)
    (h : ∀ c ∈ cs, c.isAlphanum = true) : reSearch cs = none := by
  induction cs with
  | nil => rfl
  | cons c rest ih =>
    simp only [reSearch, tryMatchAt_none_of_alnum _ h]
    exact ih (fun c2 hc2 => h c2 (List.mem_cons_of_mem _ hc2))

/-- C7: a bare 22-character alphanumeric token is returned unchanged by the
identity resolver, and `search_artist` then resolves it by a direct
`sp.artist` lookup, issuing no name-search call. -/
theorem resolver_bare_id (lookupApi : String → Option Artist)
    (searchApi : String → Option (List Artist)) (s : String)
    (hlen : s.toList.length = 22)
    (halnum : ∀ c ∈ s.toList, c.isAlphanum = true) :
    extract_artist_id s = some s ∧
    search_artist lookupApi searchApi s = (lookupApi s, [SpCall.artistLookup s]) := by
  have hre : reSearch s.toList = none := reSearch_none_of_alnum _ halnum
  have hex : extract_artist_id s = some s := by
    unfold extract_artist_id
    rw [hre]
    rw [if_pos ⟨hlen, List.all_eq_true.mpr halnum⟩]
  refine ⟨hex, ?_⟩
  unfold search_artist
  rw [hex]

/-- Witness for C7 at the canonical 22-character identifier from the spec
scenario. -/
theorem resolver_bare_id_witness :
    extract_artist_id ("1Xyo4u8uXC1ZmMpatF05PJ") = some ("1Xyo4u8uXC1ZmMpatF05PJ") ∧
    search_artist (fun i => some ⟨i, "W", some 95⟩) (fun _ => none)
        ("1Xyo4u8uXC1ZmMpatF05PJ") =
      (some ⟨"1Xyo4u8uXC1ZmMpatF05PJ", "W", some 95⟩,
        [SpCall.artistLookup ("1Xyo4u8uXC1ZmMpatF05PJ")]) :=
  resolver_bare_id (fun i => some ⟨i, "W", some 95⟩) (fun _ => none)
    ("1Xyo4u8uXC1ZmMpatF05PJ") (by decide) (by decide)

/-- Helper: positions with no match are skipped by the left-to-right scan. -/
theorem reSearch_append_skip (u : List Char) :
    ∀ v, (∀ i, i < u.length → tryMatchAt ((u ++ v).drop i) = none) →
      reSearch (u ++ v) = reSearch v := by
  induction u with
  | nil => intro v _; rfl
  | cons c u ih =>
    intro v h
    have h0 := h 0 (by simp)
    rw [List.drop_zero] at h0
    have hstep : ∀ i, i < u.length → tryMatchAt ((u ++ v).drop i) = none := by
      intro i hi
      have := h (i + 1) (by simpa using Nat.succ_lt_succ hi)
      rwa [List.cons_append, List.drop_succ_cons] at this
    rw [List.cons_append]
    simp only [reSearch]
    rw [List.cons_append] at h0
    rw [h0]
    exact ih v hstep

/-- Helper: the scan on a noMatch-free string returns none. -/
theorem reSearch_none_of (cs : List Char)
    (h : ∀ i, i < cs.length → tryMatchAt (cs.drop i) = none) :
    reSearch cs = none := by
  induction cs with
  | nil => rfl
  | cons c rest ih =>
    have h0 := h 0 (by simp)
    rw [List.drop_zero] at h0
    simp only [reSearch, h0]
    exact ih (fun i hi => by
      have := h (i + 1) (by simpa using Nat.succ_lt_succ hi)
      rwa [List.drop_succ_cons] at this)

/-- Helper: at the position of a recognized prefix followed by a nonempty
alphanumeric run, the pattern matches and captures exactly that run. -/
theorem tryMatchAt_pat (p m suf : List Char) (hp : p = uriPat ∨ p = urlPat)
    (hm : m ≠ []) (hall : ∀ c ∈ m, c.isAlphanum = true)
    (hsuf : ∀ c, suf.head? = some c → c.isAlphanum = false) :
    tryMatchAt (p ++ (m ++ suf)) = some m := by
  have hmE : m.isEmpty = false := by
    cases m with
    | nil => exact absurd rfl hm
    | cons a l => rfl
  rcases hp with hp | hp
  · subst hp
    have h1 : uriPat.isPrefixOf (uriPat ++ (m ++ suf)) = true :=
      List.isPrefixOf_iff_prefix.mpr (List.prefix_append _ _)
    have htake : ((uriPat ++ (m ++ suf)).drop uriPat.length).takeWhile
        Char.isAlphanum = m := by
      rw [List.drop_left]
      exact takeWhile_append_run _ m suf hall hsuf
    simp only [tryMatchAt, h1, if_true, htake, hmE, Bool.false_eq_true, if_false]
  · subst hp
    have h0 : uriPat.isPrefixOf (urlPat ++ (m ++ suf)) = false := by
      rw [show urlPat ++ (m ++ suf) =
        'o' :: ("pen.spotify.com/artist/".toList ++ (m ++ suf)) from rfl]
      rw [show uriPat = 's' :: "potify:artist:".toList from rfl]
      simp [List.isPrefixOf]
    have h1 : urlPat.isPrefixOf (urlPat ++ (m ++ suf)) = true :=
      List.isPrefixOf_iff_prefix.mpr (List.prefix_append _ _)
    have htake : ((urlPat ++ (m ++ suf)).drop urlPat.length).takeWhile
        Char.isAlphanum = m := by
      rw [List.drop_left]
      exact takeWhile_append_run _ m suf hall hsuf
    simp only [tryMatchAt, h0, h1, if_true, htake, hmE, Bool.false_eq_true, if_false]

/-- Helper: a successful match at the current position is returned. -/
theorem reSearch_cons_some (c : Char) (rest m : List Char)
    (h : tryMatchAt (c :: rest) = some m) : reSearch (c :: rest) = some m := by
  simp only [reSearch, h]

/-- Helper: combined scan-and-capture: with no occurrence of either
pattern before the prefix position and a nonempty alphanumeric run after
the prefix, the resolver returns exactly that run. -/
theorem extract_embedded_run (u p m suf : List Char)
    (hp : p = uriPat ∨ p = urlPat) (hm : m ≠ [])
    (hall : ∀ c ∈ m, c.isAlphanum = true)
    (hsuf : ∀ c, suf.head? = some c → c.isAlphanum = false)
    (hfirst : ∀ i, i < u.length →
      uriPat.isPrefixOf ((u ++ (p ++ (m ++ suf))).drop i) = false ∧
      urlPat.isPrefixOf ((u ++ (p ++ (m ++ suf))).drop i) = false) :
    extract_artist_id (String.mk (u ++ (p ++ (m ++ suf)))) = some (String.mk m) := by
  have hskip : reSearch (u ++ (p ++ (m ++ suf))) = reSearch (p ++ (m ++ suf)) :=
    reSearch_append_skip u _ (fun i hi =>
      tryMatchAt_eq_none_of _ (hfirst i hi).1 (hfirst i hi).2)
  have ht := tryMatchAt_pat p m suf hp hm hall hsuf
  have hmatch : reSearch (p ++ (m ++ suf)) = some m := by
    rcases hp with hp | hp <;> subst hp
    · rw [show uriPat ++ (m ++ suf) =
        's' :: ("potify:artist:".toList ++ (m ++ suf)) from rfl] at ht ⊢
      exact reSearch_cons_some _ _ _ ht
    · rw [show urlPat ++ (m ++ suf) =
        'o' :: ("pen.spotify.com/artist/".toList ++ (m ++ suf)) from rfl] at ht ⊢
      exact reSearch_cons_some _ _ _ ht
  unfold extract_artist_id
  rw [show (String.mk (u ++ (p ++ (m ++ suf)))).toList =
    u ++ (p ++ (m ++ suf)) from rfl]
  rw [hskip, hmatch]

/-- C8: for an input embedding an identifier through either recognized
prefix (URI form or URL path form, matched case-sensitively), with no
earlier occurrence of either prefix, the resolver extracts exactly the
maximal alphanumeric run following the prefix, stopping at the first
non-alphanumeric character. -/
theorem resolver_embedded_extract (u p m suf : List Char)
    (hp : p = uriPat ∨ p = urlPat) (hm : m ≠ [])
    (hall : ∀ c ∈ m, c.isAlphanum = true)
    (hsuf : ∀ c, suf.head? = some c → c.isAlphanum = false)
    (hfirst : ∀ i, i < u.length →
      uriPat.isPrefixOf ((u ++ (p ++ (m ++ suf))).drop i) = false ∧
      urlPat.isPrefixOf ((u ++ (p ++ (m ++ suf))).drop i) = false) :
    extract_artist_id (String.mk (u ++ (p ++ (m ++ suf)))) = some (String.mk m) :=
  extract_embedded_run u p m suf hp hm hall hsuf hfirst

/-- Witness for C8: a URL-form identifier embedded mid-string with a
trailing non-alphanumeric remainder extracts the run between them. -/
theorem resolver_embedded_extract_witness :
    extract_artist_id (String.mk ("see ".toList ++
        (urlPat ++ ("abc123".toList ++ " now".toList)))) =
      some (String.mk ("abc123".toList)) := by
  apply resolver_embedded_extract
  · exact Or.inr rfl
  · decide
  · decide
  · intro c hc
    have hc2 : c = ' ' := by
      simp only [List.head?] at hc
      exact (Option.some.injEq _ _).mp hc.symm ▸ rfl
    subst hc2
    decide
  · decide

/-- C10: the embedded-prefix extraction applies no length validation: for
every input embedding either prefix at any position (with no earlier
occurrence of either prefix) followed by an alphanumeric run of any
nonzero length, the resolver returns exactly that run, regardless of its
length; and the 22-character shape check governs only inputs containing
neither prefix at any position, which resolve to the input itself
exactly when it is 22 alphanumeric characters and to `none`
otherwise. -/
theorem resolver_no_length_check (u p m suf s : List Char)
    (hp : p = uriPat ∨ p = urlPat) (hm : m ≠ [])
    (hall : ∀ c ∈ m, c.isAlphanum = true)
    (hsuf : ∀ c, suf.head? = some c → c.isAlphanum = false)
    (hfirst : ∀ i, i < u.length →
      uriPat.isPrefixOf ((u ++ (p ++ (m ++ suf))).drop i) = false ∧
      urlPat.isPrefixOf ((u ++ (p ++ (m ++ suf))).drop i) = false)
    (hno : ∀ i, i < s.length →
      uriPat.isPrefixOf (s.drop i) = false ∧
      urlPat.isPrefixOf (s.drop i) = false) :
    extract_artist_id (String.mk (u ++ (p ++ (m ++ suf)))) = some (String.mk m) ∧
    extract_artist_id (String.mk s) =
      (if s.length = 22 ∧ s.all Char.isAlphanum then some (String.mk s) else none) := by
  refine ⟨extract_embedded_run u p m suf hp hm hall hsuf hfirst, ?_⟩
  have hre : reSearch s = none :=
    reSearch_none_of s (fun i hi =>
      tryMatchAt_eq_none_of _ (hno i hi).1 (hno i hi).2)
  unfold extract_artist_id
  rw [show (String.mk s).toList = s from rfl]
  rw [hre]

/-- Witness for C10: the embedded 2-character identifier mid-string is
extracted despite its non-canonical length, and a 9-character bare token
with no embedded prefix maps to `none`. -/
theorem resolver_no_length_check_witness :
    extract_artist_id (String.mk ("xx ".toList ++
        (uriPat ++ ("ab".toList ++ " yy".toList)))) =
      some (String.mk ("ab".toList)) ∧
    extract_artist_id ("TheWeeknd") = none := by
  have h := resolver_no_length_check ("xx ".toList) uriPat ("ab".toList)
    (" yy".toList) ("TheWeeknd".toList) (Or.inl rfl) (by decide) (by decide)
    (by
      intro c hc
      have hc2 : c = ' ' := by
        simp only [List.head?] at hc
        exact (Option.some.injEq _ _).mp hc.symm ▸ rfl
      subst hc2
      decide)
    (by decide) (by decide)
  refine ⟨h.1, ?_⟩
  have h2 := h.2
  rw [show String.mk ("TheWeeknd".toList) = ("TheWeeknd") from rfl] at h2
  rw [h2]
  decide
